import Mathlib

/-!
Verification development for the lambda-promtail normalization-and-delivery
pipeline (Go sources under `tools/lambda-promtail/lambda-promtail/`).

The Go code is shallowly embedded: strings are Lean strings, `strings.*`
helpers are re-implemented over character lists, a parsed JSON document is an
explicit tree (`Json`), and the prometheus `model.LabelSet` is an association
list with insert-or-update semantics (a faithful refinement of a Go map as
long as only order-insensitive facts — lookups, emptiness, key sets — are
stated, which is all this file does).
-/

/-! ## Go string primitives -/

/-- Byte length of one character when UTF-8 encoded; Go `len` on a string
counts UTF-8 bytes. -/
def charUtf8Len (c : Char) : Nat :=
  if c.toNat < 0x80 then 1
  else if c.toNat < 0x800 then 2
  else if c.toNat < 0x10000 then 3
  else 4

/-- Go `len(s)` for a (valid UTF-8) string: its UTF-8 byte count. -/
def goLen (s : String) : Nat :=
  s.data.foldl (fun n c => n + charUtf8Len c) 0

/-- Whether `sub` occurs as a contiguous run inside `l` (helper for
`strings.Contains`). -/
def containsSub (sub : List Char) : List Char → Bool
  | [] => sub.isEmpty
  | c :: t => sub.isPrefixOf (c :: t) || containsSub sub t

/-- Go `strings.Contains(s, sub)`. -/
def goContains (s sub : String) : Bool :=
  containsSub sub.data s.data

/-- Replace the first occurrence of `old` in the list by `new`
(helper for Go `strings.Replace(s, old, new, 1)`). -/
def replaceOnceChars (old new : List Char) : List Char → List Char
  | [] => if old.isPrefixOf ([] : List Char) then new else []
  | c :: t =>
      if old.isPrefixOf (c :: t) then new ++ (c :: t).drop old.length
      else c :: replaceOnceChars old new t

/-- Go `strings.Replace(s, old, new, 1)`. -/
def goReplaceOnce (s old new : String) : String :=
  String.mk (replaceOnceChars old.data new.data s.data)

/-- Replace every occurrence of the character `a` by the run `rep`
(helper for Go `strings.ReplaceAll` with a one-character pattern). -/
def replaceAllChar (a : Char) (rep : List Char) : List Char → List Char
  | [] => []
  | c :: t => (if c = a then rep else [c]) ++ replaceAllChar a rep t

/-- Go `strings.EqualFold` restricted to ASCII folding (all paths compared in
the source are ASCII). -/
def goEqualFold (a b : String) : Bool :=
  a.data.map Char.toLower == b.data.map Char.toLower

/-- Digit-run parser: `some n` when the list is a non-empty run of ASCII
digits (helper for array indices and `strconv.Atoi`). -/
def digitsToNat? (l : List Char) : Option Nat :=
  if l ≠ [] ∧ l.all Char.isDigit then
    some (l.foldl (fun n c => 10 * n + (c.toNat - 48)) 0)
  else none

/-! ## `model.LabelSet` (prometheus/common) as an association list -/

/-- A label set: association list from label name to label value, keys
unique. -/
abbrev LabelSet := List (String × String)

/-- Lookup of a label name. -/
def lsGet : LabelSet → String → Option String
  | [], _ => none
  | (k, v) :: rest, key => if k = key then some v else lsGet rest key

/-- Map-style insert-or-update of one key. -/
def lsInsert (ls : LabelSet) (k v : String) : LabelSet :=
  if ls.any (fun p => p.1 == k) then
    ls.map (fun p => if p.1 == k then (k, v) else p)
  else ls ++ [(k, v)]

/-- `model.LabelSet.Merge`: copy the receiver, then write every pair of the
argument over it — a right-biased union. -/
def lsMerge (a b : LabelSet) : LabelSet :=
  b.foldl (fun acc p => lsInsert acc p.1 p.2) a

/-! ## Parsed JSON documents (the `gjson` view) -/

/-- A parsed JSON document. A number keeps its raw textual representation,
exactly as a `gjson.Result` of type `Number` keeps `Raw`. -/
inductive Json where
  | str : String → Json
  | num : String → Json
  | boolean : Bool → Json
  | null : Json
  | obj : List (String × Json) → Json
  | arr : List Json → Json

/-- `value.Type != gjson.JSON`: true on every non-object, non-array value. -/
def isScalar : Json → Bool
  | .obj _ => false
  | .arr _ => false
  | _ => true

/-- Split a `gjson` path on `.` (the source only builds plain dot-separated
paths, no escapes or wildcards). -/
def splitPathChars : List Char → List Char → List String
  | [], acc => [String.mk acc.reverse]
  | c :: t, acc =>
      if c = '.' then String.mk acc.reverse :: splitPathChars t []
      else splitPathChars t (c :: acc)

/-- The segments of a dot-separated path. -/
def splitPath (p : String) : List String :=
  splitPathChars p.data []

/-- `gjson.Get`: walk the parsed document along the path segments. An object
segment matches the first field with that key; an array segment must be a
digit run and indexes the element. `none` models a non-existent result. -/
def jget : List String → Json → Option Json
  | [], j => some j
  | seg :: rest, .obj fields =>
      match fields.find? (fun p => p.1 == seg) with
      | some p => jget rest p.2
      | none => none
  | seg :: rest, .arr elems =>
      match digitsToNat? seg.data with
      | some i =>
          match elems[i]? with
          | some v => jget rest v
          | none => none
      | none => none
  | _ :: _, _ => none

/-- The `.Str` field of a `gjson.Result`: the string payload for a string
result, empty for every other (or non-existent) result. -/
def strFieldOf : Option Json → String
  | some (.str s) => s
  | _ => ""

/-- The loop of `parser_json` computes `value_label` from a looked-up result:
`value.Str`, overridden to `value.Raw` for a number and to `""` for a null;
a non-existent result has type `Null` and hence also yields `""`. -/
def valueLabelOf : Option Json → String
  | some (.str s) => s
  | some (.num raw) => raw
  | some .null => ""
  | some (.boolean _) => ""
  | some (.obj _) => ""
  | some (.arr _) => ""
  | none => ""

/-! ## `get_paths` (parser_json.go): recursive path enumeration

`get_paths` walks the parsed document with `ForEach`, building a dot path and
appending one path per non-JSON (scalar) child, recursing into objects and
arrays. Inside the iteration the Go code sets `new_path` as follows: with an
empty `parent_path` it always uses `key.Str` (which is the key for an object
iteration and the empty string for an array iteration, whose keys are
numbers); with a non-empty `parent_path` it appends `"." + key` for a string
key and `"." + fmt.Sprint(int(key.Num))` for a numeric key. -/

mutual

def get_paths : Json → String → List String
  | .obj fields, parent_path => getPathsFields fields parent_path
  | .arr elems, parent_path => getPathsElems elems parent_path 0
  | _, _ => [""]

def getPathsFields : List (String × Json) → String → List String
  | [], _ => []
  | (key, value) :: rest, parent_path =>
      let new_path := if parent_path = "" then key else parent_path ++ "." ++ key
      (if isScalar value then [new_path] else get_paths value new_path) ++
        getPathsFields rest parent_path

def getPathsElems : List Json → String → Nat → List String
  | [], _, _ => []
  | value :: rest, parent_path, idx =>
      let new_path := if parent_path = "" then "" else parent_path ++ "." ++ toString idx
      (if isScalar value then [new_path] else get_paths value new_path) ++
        getPathsElems rest parent_path (idx + 1)

end

mutual

/-- The number of scalar leaves of a document (reference count for the
pairs-per-scalar property). -/
def countScalars : Json → Nat
  | .obj fields => countScalarsFields fields
  | .arr elems => countScalarsElems elems
  | _ => 1

def countScalarsFields : List (String × Json) → Nat
  | [] => 0
  | (_, v) :: rest => countScalars v + countScalarsFields rest

def countScalarsElems : List Json → Nat
  | [] => 0
  | v :: rest => countScalars v + countScalarsElems rest

end

/-! ## The IP Region Annotator -/

/-- Modelled from the spec: the static geo database behind the IP Region
Annotator. The repository's own tests pin three lookups down
(`searchRegionFromIp` on a text containing "34.202.37.93" must return "US",
on one containing "113.185.104.76" it must return "VN", and
`MapIPToLocation "118.70.14.128"` is "VN"). -/
def geoDatabase : List (String × String) :=
  [("34.202.37.93", "US"), ("113.185.104.76", "VN"), ("118.70.14.128", "VN")]

/-- Modelled from the spec: `searchRegionFromIp` — the IP Region Annotator,
whose definition is not among the available sources (only its callers in
`parser_json` and its test are). Given raw text it scans for IPv4 addresses
(`FindIPAddresses`) and optionally returns a region code from the static geo
database (`MapIPToLocation`); text containing no known address yields `""`. -/
def searchRegionFromIp (text : String) : String :=
  match geoDatabase.find? (fun p => goContains text p.1) with
  | some p => p.2
  | none => ""

/-! ## `parser_json` (parser_json.go) -/

/-- A raw input text together with its parse: `raw` models the Go string fed
to `searchRegionFromIp`, and `parsed` the outcome of the JSON parser —
`parsed = none` models a text rejected by `gjson.Valid`, `parsed = some j`
a text parsing to `j`. -/
structure GoText where
  raw : String
  parsed : Option Json

/-- `validPath` (parser_json.go): replace every `-` by `_` and every `.` by
`__`; each pass of `strings.ReplaceAll` has a one-character pattern, so both
are character-wise rewrites. -/
def validPath (path : String) : String :=
  String.mk (replaceAllChar '.' ['_', '_'] (replaceAllChar '-' ['_'] path.data))

/-- One iteration of the loop in `parser_json` (parser_json.go lines 26-59):
given the parsed document and one path from `get_paths`, return the
(path, value) pair merged into the label set, or `none` when one of the
`continue` branches fires. The steps mirror the source in order: value
lookup and `value_label` resolution; the `httpRequest.headers`/`name` skip;
the `httpRequest.headers`/`value` path rewrite to
`"httpRequest.headers." + name.Str`; the 6048-byte value bound; the
1024-byte path bound; sanitization by `validPath`; and the two deny-list
`continue`s. -/
def emitOf (j : Json) (path0 : String) : Option (String × String) :=
  let value := jget (splitPath path0) j
  let value_label := valueLabelOf value
  if goContains path0 "httpRequest.headers" && goContains path0 "name" then none
  else
    let path1 :=
      if goContains path0 "httpRequest.headers" && goContains path0 "value" then
        "httpRequest.headers." ++
          strFieldOf (jget (splitPath (goReplaceOnce path0 "value" "name")) j)
      else path0
    if goLen value_label > 6048 then none
    else if goLen path1 > 1024 then none
    else
      let path2 := validPath path1
      if goContains path2 "ruleGroupList" ||
         goEqualFold path2 "httpRequest__headers__Accept" ||
         goContains path2 "httpRequest__headers__accept_encoding" ||
         goContains path2 "httpRequest__headers__accept_language" ||
         goContains path2 "httpRequest__headers__cache_control" ||
         goContains path2 "httpRequest__headers__authorization" then none
      else if goContains path2 "httpRequest__headers__If_Modified_Since" ||
              goContains path2 "httpRequest__requestId" then none
      else some (path2, value_label)

/-- `parser_json` (parser_json.go): start from the empty label set, merge the
region annotation when the annotator returns one, return early on invalid
text, then walk every path produced by `get_paths`, merging each surviving
(path, value) singleton. -/
def parser_json (text : GoText) : LabelSet :=
  let labels : LabelSet := []
  let region := searchRegionFromIp text.raw
  let labels := if region ≠ "" then lsMerge labels [("region", region)] else labels
  match text.parsed with
  | none => labels
  | some j =>
      (get_paths j "").foldl
        (fun ls path =>
          match emitOf j path with
          | none => ls
          | some pv => lsMerge ls [pv])
        labels

/-- The (path, value) pairs of the loop of `parser_json` that survive every
`continue`, in emission order. -/
def emittedPairs (j : Json) : List (String × String) :=
  (get_paths j "").filterMap (emitOf j)

/-! ## `parseS3Log` (s3.go): label accumulation across lines

The body of the scan loop (s3.go lines 179-186) runs, for each log line,
`log_labels := parser_json(log_line); ls = ls.Merge(log_labels)` and then
appends an entry carrying the current `ls`. Only the label-set component of
the appended entries is modelled here (timestamp extraction and the flow-log
header skip do not touch `ls`). -/

/-- The label set reached after folding a sequence of lines into the base
label set, one `ls = ls.Merge(parser_json(log_line))` step per line. -/
def accState (init : LabelSet) (lines : List GoText) : LabelSet :=
  lines.foldl (fun ls line => lsMerge ls (parser_json line)) init

/-- The label sets of the entries appended by the loop of `parseS3Log`, in
order: the i-th element is the accumulated `ls` stored in the entry for
line i. -/
def parseS3Log_ls : LabelSet → List GoText → List LabelSet
  | _, [] => []
  | ls, line :: rest =>
      let ls2 := lsMerge ls (parser_json line)
      ls2 :: parseS3Log_ls ls2 rest

/-! ## `setupArguments` (main.go): authentication and batch size -/

/-- The authentication validation of `setupArguments` (main.go lines 62-73):
`false` means the corresponding `panic` fires. First check: if either of
username/password is set then both must be. Second check: if username and
password are set, a bearer token is not allowed. -/
def authValidate (username password bearerToken : String) : Bool :=
  if (username != "" && password == "") || (username == "" && password != "") then
    false
  else if username != "" && bearerToken != "" then
    false
  else true

/-- The digit-run half of Go `strconv.Atoi`: the signed value and `true` for
a well-formed run, and Go's `(0, err)` outcome — value 0, `false` — on a
syntax error. -/
def goAtoiDigits (sign : Int) (digits : List Char) : Int × Bool :=
  match digitsToNat? digits with
  | some n => (sign * (n : Int), true)
  | none => (0, false)

/-- Go `strconv.Atoi` (base-10 syntax: optional sign, then digits). -/
def goAtoi (s : String) : Int × Bool :=
  match s.data with
  | [] => goAtoiDigits 1 []
  | c :: t =>
      if c = '+' then goAtoiDigits 1 t
      else if c = '-' then goAtoiDigits (-1) t
      else goAtoiDigits 1 (c :: t)

/-- The batch-size computation of `setupArguments` (main.go lines 90-94):
default 131072, overwritten by `batchSize, _ = strconv.Atoi(batch)` whenever
the BATCH_SIZE environment variable is non-empty — the parse error is
discarded, so a non-integer value leaves Atoi's zero result in place. -/
def setupBatchSize (batchEnv : String) : Int :=
  if batchEnv != "" then (goAtoi batchEnv).1 else 131072

/-! ## The Delivery Client (spec-modelled) -/

/-- Modelled from the spec: the outcome of one HTTP send attempt as seen by
the Delivery Client — a network-level failure, a request timeout, or an HTTP
status code. -/
inductive HttpOutcome where
  | netError : HttpOutcome
  | timeout : HttpOutcome
  | status : Nat → HttpOutcome

/-- Modelled from the spec: the per-attempt classification of the retry
state machine, `Attempting → {Success, Retryable, Fatal}`. -/
inductive SendClass where
  | success : SendClass
  | retryable : SendClass
  | fatal : SendClass
deriving DecidableEq

/-- Modelled from the spec: classification of one attempt's outcome.
Network-level failures, request timeouts, and 5xx/429 responses are
retryable; a 2xx response is success; every other response (4xx other than
429 among them) is fatal. -/
def classify : HttpOutcome → SendClass
  | .netError => .retryable
  | .timeout => .retryable
  | .status c =>
      if 200 ≤ c ∧ c ≤ 299 then .success
      else if (500 ≤ c ∧ c ≤ 599) ∨ c = 429 then .retryable
      else .fatal

/-- Modelled from the spec: the terminal result of the Delivery Client's
send loop. -/
inductive DeliveryResult where
  | delivered : DeliveryResult
  | deliveryFatal : DeliveryResult
  | deliveryExhausted : DeliveryResult
deriving DecidableEq

/-- Modelled from the spec: the retry loop from attempt number `used`, with
`fuel` attempts remaining out of the configured maximum; `resp n` is the
outcome of the (n+1)-th request. Returns the terminal result and the total
number of requests issued. On success or a fatal classification the loop
stops at once; on a retryable classification it backs off and retries;
exhausting the attempt count surfaces `deliveryExhausted`. -/
def deliverFrom (resp : Nat → HttpOutcome) : Nat → Nat → DeliveryResult × Nat
  | 0, used => (.deliveryExhausted, used)
  | fuel + 1, used =>
      match classify (resp used) with
      | .success => (.delivered, used + 1)
      | .fatal => (.deliveryFatal, used + 1)
      | .retryable => deliverFrom resp fuel (used + 1)

/-- Modelled from the spec: `send` with a maximum attempt count. -/
def deliver (maxAttempts : Nat) (resp : Nat → HttpOutcome) : DeliveryResult × Nat :=
  deliverFrom resp maxAttempts 0

/-! ## The handler's fallback routing (main.go variant of src/unnamed/part_000,
with `processEvent`/`parserEvent` from default_event.go) -/

/-- The five envelope schemas `checkEventType` trial-decodes against, in
order. The decode itself (encoding/json against the aws-lambda-go record
types) is abstracted: the handler is given the result of `checkEventType`
as an `Option KnownEvent`. -/
inductive KnownEvent where
  | s3Event : KnownEvent
  | s3TestEvent : KnownEvent
  | cwEvent : KnownEvent
  | kinesisEvent : KnownEvent
  | sqsEvent : KnownEvent
deriving DecidableEq

/-- One log entry of a batch: its label set and its raw line (timestamps are
not modelled). -/
structure LogEntry where
  labels : LabelSet
  line : String
deriving DecidableEq

/-- Modelled from the spec: `batch.add` (the Batch Aggregator's append,
whose source is not among the available files) — an entry with an empty
label set is rejected with an `InvalidEntry` error, any other entry is
appended to the batch. -/
def batchAdd (b : List LogEntry) (e : LogEntry) : Except String (List LogEntry) :=
  if e.labels = [] then .error "InvalidEntry" else .ok (b ++ [e])

/-- `applyExtraLabels` (main.go): merge the operator-configured extra labels
over the given set (right-biased toward the extras). -/
def applyExtraLabels (extraLabels : LabelSet) (labels : LabelSet) : LabelSet :=
  lsMerge labels extraLabels

/-- `parserEvent` (default_event.go): serialize the raw record (the
serialized form is the `raw` component of the given `GoText`), extract
labels with `parser_json`, apply the extra labels, and append one entry
whose line is the serialized record. -/
def parserEvent (extraLabels : LabelSet) (b : List LogEntry) (ev : GoText) :
    Except String (List LogEntry) :=
  let labels := parser_json ev
  let labels := applyExtraLabels extraLabels labels
  batchAdd b { labels := labels, line := ev.raw }

/-- What the handler does with one inbound event: route it to the adapter of
a recognized envelope, or — on the fallback path — hand a batch to
`sendToPromtail`, or fail. -/
inductive HandlerOutcome where
  | adapter : KnownEvent → HandlerOutcome
  | delivered : List LogEntry → HandlerOutcome
  | failed : String → HandlerOutcome
deriving DecidableEq

/-- `processEvent` (default_event.go): build a fresh batch, parse the raw
event into it, and deliver it; a parse error is wrapped and surfaced. -/
def processEvent (extraLabels : LabelSet) (ev : GoText) : HandlerOutcome :=
  match parserEvent extraLabels [] ev with
  | .error e => .failed ("error parsing log event: " ++ e)
  | .ok b => .delivered b

/-- `handler` (main.go, src/unnamed/part_000 lines 178-198): when
`checkEventType` recognizes no known envelope it returns an error and the
handler routes the raw event to `processEvent` (the generic fallback);
otherwise it dispatches on the decoded event type. -/
def handler (decoded : Option KnownEvent) (extraLabels : LabelSet) (ev : GoText) :
    HandlerOutcome :=
  match decoded with
  | none => processEvent extraLabels ev
  | some evt => .adapter evt

/-! ## Lookup lemmas for the label-set operations -/

theorem lsGet_append (a b : LabelSet) (k : String) :
    lsGet (a ++ b) k =
      match lsGet a k with
      | some v => some v
      | none => lsGet b k := by
  induction a with
  | nil => simp [lsGet]
  | cons p t ih =>
      obtain ⟨k0, v0⟩ := p
      by_cases h : k0 = k <;> simp [lsGet, h, ih]

theorem lsGet_none_of_keys (l : LabelSet) (k : String)
    (h : ∀ p ∈ l, p.1 ≠ k) : lsGet l k = none := by
  induction l with
  | nil => rfl
  | cons p t ih =>
      obtain ⟨k0, v0⟩ := p
      have hk0 : k0 ≠ k := h (k0, v0) (by simp)
      simp only [lsGet, if_neg hk0]
      exact ih fun q hq => h q (by simp [hq])

theorem keys_of_lsGet_none (l : LabelSet) (k : String)
    (h : lsGet l k = none) : ∀ p ∈ l, p.1 ≠ k := by
  induction l with
  | nil => simp
  | cons p t ih =>
      obtain ⟨k0, v0⟩ := p
      by_cases hk0 : k0 = k
      · simp [lsGet, hk0] at h
      · simp only [lsGet, if_neg hk0] at h
        intro q hq
        rcases List.mem_cons.mp hq with hq | hq
        · subst hq; exact hk0
        · exact ih h q hq

theorem lsGet_update_self (a : LabelSet) (k v : String)
    (h : a.any (fun p => p.1 == k) = true) :
    lsGet (a.map (fun p => if p.1 == k then (k, v) else p)) k = some v := by
  induction a with
  | nil => simp at h
  | cons p t ih =>
      obtain ⟨k0, v0⟩ := p
      by_cases hk : k0 = k
      · subst hk
        simp only [List.map_cons, beq_self_eq_true, if_true]
        simp [lsGet]
      · have hb : (k0 == k) = false := by simpa using hk
        simp only [List.any_cons, hb, Bool.false_or] at h
        simp only [List.map_cons, hb, Bool.false_eq_true, if_false]
        simp only [lsGet, if_neg hk]
        exact ih h

theorem lsGet_update_ne (a : LabelSet) (k v key : String) (h : key ≠ k) :
    lsGet (a.map (fun p => if p.1 == k then (k, v) else p)) key = lsGet a key := by
  induction a with
  | nil => rfl
  | cons p t ih =>
      obtain ⟨k0, v0⟩ := p
      by_cases hk : k0 = k
      · subst hk
        simp only [List.map_cons, beq_self_eq_true, if_true]
        simp only [lsGet, if_neg (Ne.symm h)]
        exact ih
      · have hb : (k0 == k) = false := by simpa using hk
        simp only [List.map_cons, hb, Bool.false_eq_true, if_false]
        by_cases hkey : k0 = key
        · simp only [lsGet, if_pos hkey, ih]
        · simp only [lsGet, if_neg hkey, ih]

theorem lsGet_insert_self (a : LabelSet) (k v : String) :
    lsGet (lsInsert a k v) k = some v := by
  rw [lsInsert]
  split
  · rename_i h
    exact lsGet_update_self a k v h
  · rename_i h
    rw [lsGet_append]
    have hnone : lsGet a k = none := by
      apply lsGet_none_of_keys
      intro p hp
      have := List.any_eq_false.mp (Bool.not_eq_true _ ▸ h) p hp
      simpa using this
    rw [hnone]
    simp [lsGet]

theorem lsGet_insert_ne (a : LabelSet) (k v key : String) (h : key ≠ k) :
    lsGet (lsInsert a k v) key = lsGet a key := by
  rw [lsInsert]
  split
  · exact lsGet_update_ne a k v key h
  · rw [lsGet_append]
    cases ha : lsGet a key with
    | some w => rfl
    | none => simp [lsGet, if_neg (Ne.symm h)]

theorem lsMerge_cons (a : LabelSet) (p : String × String) (b : LabelSet) :
    lsMerge a (p :: b) = lsMerge (lsInsert a p.1 p.2) b := rfl

theorem lsGet_merge (a b : LabelSet) (k : String) :
    lsGet (lsMerge a b) k =
      match lsGet b.reverse k with
      | some v => some v
      | none => lsGet a k := by
  induction b generalizing a with
  | nil => simp [lsMerge, lsGet]
  | cons p bs ih =>
      obtain ⟨k0, v0⟩ := p
      rw [lsMerge_cons, ih, List.reverse_cons, lsGet_append]
      cases hrev : lsGet bs.reverse k with
      | some v => rfl
      | none =>
          by_cases hk : k = k0
          · subst hk
            simp [lsGet, lsGet_insert_self]
          · rw [lsGet_insert_ne a k0 v0 k hk]
            simp [lsGet, if_neg (Ne.symm hk)]

theorem lsGet_reverse_of_nodup (b : LabelSet) (k : String)
    (h : (b.map Prod.fst).Nodup) : lsGet b.reverse k = lsGet b k := by
  induction b with
  | nil => rfl
  | cons p bs ih =>
      obtain ⟨k0, v0⟩ := p
      simp only [List.map_cons, List.nodup_cons] at h
      obtain ⟨hk0, hnd⟩ := h
      rw [List.reverse_cons, lsGet_append, ih hnd]
      by_cases hk : k0 = k
      · subst hk
        have hnone : lsGet bs k0 = none := by
          apply lsGet_none_of_keys
          intro q hq hq1
          exact hk0 (hq1 ▸ List.mem_map_of_mem Prod.fst hq)
        rw [hnone]
        simp [lsGet]
      · cases hbs : lsGet bs k with
        | some v => simp [lsGet, if_neg hk, hbs]
        | none => simp [lsGet, if_neg hk, hbs]

theorem lsGet_merge_right (a b : LabelSet) (k v : String)
    (hnd : (b.map Prod.fst).Nodup) (h : lsGet b k = some v) :
    lsGet (lsMerge a b) k = some v := by
  rw [lsGet_merge, lsGet_reverse_of_nodup b k hnd, h]

theorem lsGet_merge_left (a b : LabelSet) (k : String)
    (h : lsGet b k = none) :
    lsGet (lsMerge a b) k = lsGet a k := by
  rw [lsGet_merge]
  have hnone : lsGet b.reverse k = none := by
    apply lsGet_none_of_keys
    intro q hq
    exact keys_of_lsGet_none b k h q (List.mem_reverse.mp hq)
  rw [hnone]

theorem keys_update (a : LabelSet) (k v : String) :
    (a.map (fun p => if p.1 == k then (k, v) else p)).map Prod.fst = a.map Prod.fst := by
  induction a with
  | nil => rfl
  | cons p t iht =>
      obtain ⟨k0, v0⟩ := p
      by_cases hk : k0 = k
      · subst hk
        simp only [List.map_cons, beq_self_eq_true, if_true]
        exact congrArg (k0 :: ·) iht
      · have hb : (k0 == k) = false := by simpa using hk
        simp only [List.map_cons, hb, Bool.false_eq_true, if_false]
        exact congrArg (k0 :: ·) iht

theorem keys_insert_nodup (a : LabelSet) (k v : String)
    (h : (a.map Prod.fst).Nodup) :
    ((lsInsert a k v).map Prod.fst).Nodup := by
  rw [lsInsert]
  split
  · rw [keys_update]
    exact h
  · rename_i hany
    have hany' : ∀ p ∈ a, p.1 ≠ k := by
      intro p hp hpk
      exact hany (List.any_eq_true.mpr ⟨p, hp, by simpa using hpk⟩)
    rw [List.map_append]
    simp only [List.map_cons, List.map_nil]
    apply List.Nodup.append h (List.nodup_singleton k)
    intro x hx hx1
    simp only [List.mem_singleton] at hx1
    subst hx1
    obtain ⟨q, hq, hq1⟩ := List.mem_map.mp hx
    exact hany' q hq hq1

theorem keys_merge_nodup (a b : LabelSet)
    (h : (a.map Prod.fst).Nodup) :
    ((lsMerge a b).map Prod.fst).Nodup := by
  induction b generalizing a with
  | nil => exact h
  | cons p bs ih =>
      rw [lsMerge_cons]
      exact ih _ (keys_insert_nodup a p.1 p.2 h)

/-! ## The loop of `parser_json` as a merge of the emitted pairs -/

theorem foldl_emit_eq (j : Json) (paths : List String) (init : LabelSet) :
    paths.foldl
      (fun ls path =>
        match emitOf j path with
        | none => ls
        | some pv => lsMerge ls [pv])
      init
    = lsMerge init (paths.filterMap (emitOf j)) := by
  induction paths generalizing init with
  | nil => rfl
  | cons p ps ih =>
      simp only [List.foldl_cons, List.filterMap_cons]
      cases h : emitOf j p with
      | none => simp only [h]; exact ih init
      | some pv =>
          simp only [h]
          rw [ih (lsMerge init [pv])]
          rfl

theorem parser_json_valid (raw : String) (j : Json) :
    parser_json ⟨raw, some j⟩ = lsMerge (parser_json ⟨raw, none⟩) (emittedPairs j) :=
  foldl_emit_eq j (get_paths j "") _

theorem parser_json_invalid (raw : String) :
    parser_json ⟨raw, none⟩ =
      if searchRegionFromIp raw ≠ "" then [("region", searchRegionFromIp raw)] else [] := by
  show (if searchRegionFromIp raw ≠ "" then lsMerge [] [("region", searchRegionFromIp raw)]
        else []) = _
  by_cases h : searchRegionFromIp raw ≠ ""
  · rw [if_pos h, if_pos h]
    rfl
  · rw [if_neg h, if_neg h]

theorem parser_json_keys_nodup (t : GoText) :
    ((parser_json t).map Prod.fst).Nodup := by
  obtain ⟨raw, parsed⟩ := t
  have hinit : ((parser_json ⟨raw, none⟩).map Prod.fst).Nodup := by
    rw [parser_json_invalid]
    split
    · simp
    · simp
  cases parsed with
  | none => exact hinit
  | some j =>
      rw [parser_json_valid]
      exact keys_merge_nodup _ _ hinit

/-! ## Accumulation lemmas for `parseS3Log` -/

theorem accState_append (init : LabelSet) (a b : List GoText) :
    accState init (a ++ b) = accState (accState init a) b :=
  List.foldl_append _ _ _ _

theorem lsGet_accState_of_absent (k : String) (s : LabelSet) (q : List GoText)
    (hq : ∀ y ∈ q, lsGet (parser_json y) k = none) :
    lsGet (accState s q) k = lsGet s k := by
  induction q generalizing s with
  | nil => rfl
  | cons y ys ih =>
      have hy : lsGet (parser_json y) k = none := hq y (by simp)
      have hys : ∀ z ∈ ys, lsGet (parser_json z) k = none := fun z hz => hq z (by simp [hz])
      show lsGet (accState (lsMerge s (parser_json y)) ys) k = lsGet s k
      rw [ih _ hys]
      exact lsGet_merge_left s (parser_json y) k hy

theorem parseS3Log_ls_append (init : LabelSet) (a b : List GoText) :
    parseS3Log_ls init (a ++ b) =
      parseS3Log_ls init a ++ parseS3Log_ls (accState init a) b := by
  induction a generalizing init with
  | nil => rfl
  | cons x xs ih =>
      show lsMerge init (parser_json x) :: parseS3Log_ls (lsMerge init (parser_json x)) (xs ++ b)
          = parseS3Log_ls init (x :: xs) ++ parseS3Log_ls (accState init (x :: xs)) b
      rw [ih]
      rfl

theorem parseS3Log_ls_getLast (init : LabelSet) (lines : List GoText)
    (h : lines ≠ []) :
    (parseS3Log_ls init lines).getLast? = some (accState init lines) := by
  induction lines generalizing init with
  | nil => exact absurd rfl h
  | cons x xs ih =>
      cases xs with
      | nil => rfl
      | cons y ys =>
          show (lsMerge init (parser_json x) ::
                lsMerge (lsMerge init (parser_json x)) (parser_json y) ::
                parseS3Log_ls (lsMerge (lsMerge init (parser_json x)) (parser_json y)) ys).getLast?
              = _
          rw [List.getLast?_cons_cons]
          exact ih _ (by simp)

/-! ## One path per scalar leaf -/

theorem countScalars_of_scalar (v : Json) (h : isScalar v = true) : countScalars v = 1 := by
  cases v with
  | obj fields => simp [isScalar] at h
  | arr elems => simp [isScalar] at h
  | str s => rfl
  | num s => rfl
  | boolean b => rfl
  | null => rfl

mutual

theorem get_paths_length : ∀ (j : Json) (parent_path : String),
    (get_paths j parent_path).length = countScalars j
  | .obj fields, parent_path => by
      rw [show get_paths (.obj fields) parent_path = getPathsFields fields parent_path from rfl]
      rw [show countScalars (.obj fields) = countScalarsFields fields from rfl]
      exact getPathsFields_length fields parent_path
  | .arr elems, parent_path => by
      rw [show get_paths (.arr elems) parent_path = getPathsElems elems parent_path 0 from rfl]
      rw [show countScalars (.arr elems) = countScalarsElems elems from rfl]
      exact getPathsElems_length elems parent_path 0
  | .str s, _ => rfl
  | .num s, _ => rfl
  | .boolean b, _ => rfl
  | .null, _ => rfl

theorem getPathsFields_length : ∀ (fields : List (String × Json)) (parent_path : String),
    (getPathsFields fields parent_path).length = countScalarsFields fields
  | [], _ => rfl
  | (key, value) :: rest, parent_path => by
      rw [show getPathsFields ((key, value) :: rest) parent_path
          = (if isScalar value then
               [if parent_path = "" then key else parent_path ++ "." ++ key]
             else get_paths value
               (if parent_path = "" then key else parent_path ++ "." ++ key)) ++
            getPathsFields rest parent_path from rfl]
      rw [show countScalarsFields ((key, value) :: rest)
          = countScalars value + countScalarsFields rest from rfl]
      rw [List.length_append, getPathsFields_length rest parent_path]
      by_cases h : isScalar value
      · rw [if_pos h, countScalars_of_scalar value h]
        rfl
      · rw [if_neg h, get_paths_length value _]

theorem getPathsElems_length : ∀ (elems : List Json) (parent_path : String) (idx : Nat),
    (getPathsElems elems parent_path idx).length = countScalarsElems elems
  | [], _, _ => rfl
  | value :: rest, parent_path, idx => by
      rw [show getPathsElems (value :: rest) parent_path idx
          = (if isScalar value then
               [if parent_path = "" then "" else parent_path ++ "." ++ toString idx]
             else get_paths value
               (if parent_path = "" then "" else parent_path ++ "." ++ toString idx)) ++
            getPathsElems rest parent_path (idx + 1) from rfl]
      rw [show countScalarsElems (value :: rest)
          = countScalars value + countScalarsElems rest from rfl]
      rw [List.length_append, getPathsElems_length rest parent_path (idx + 1)]
      by_cases h : isScalar value
      · rw [if_pos h, countScalars_of_scalar value h]
        rfl
      · rw [if_neg h, get_paths_length value _]

end

/-- Inversion on one surviving loop iteration of `parser_json`: an emitted
pair's value is the `value_label` resolved from the original path, is at most
6048 bytes long, its path is the sanitization of some path of at most 1024
bytes, and it passes both deny-list guards. -/
theorem emitOf_inv (j : Json) (path p v : String) (h : emitOf j path = some (p, v)) :
    v = valueLabelOf (jget (splitPath path) j) ∧
    goLen v ≤ 6048 ∧
    (∃ q, goLen q ≤ 1024 ∧ p = validPath q) ∧
    (goContains p "ruleGroupList" || goEqualFold p "httpRequest__headers__Accept" ||
     goContains p "httpRequest__headers__accept_encoding" ||
     goContains p "httpRequest__headers__accept_language" ||
     goContains p "httpRequest__headers__cache_control" ||
     goContains p "httpRequest__headers__authorization") = false ∧
    (goContains p "httpRequest__headers__If_Modified_Since" ||
     goContains p "httpRequest__requestId") = false := by
  simp only [emitOf] at h
  split_ifs at h with h1 h2 h3 h4 h5 h6 h7 h8 h9
  all_goals
    simp only [Option.some.injEq, Prod.mk.injEq] at h
  all_goals
    obtain ⟨hp, hv⟩ := h
  all_goals
    subst hp
  all_goals
    subst hv
  all_goals
    refine ⟨rfl, by omega, ⟨_, by omega, rfl⟩, ?_, ?_⟩ <;> simp_all [Bool.or_eq_true]

/-! ## Attempt-count lemmas for the Delivery Client model -/

theorem deliverFrom_used_le (resp : Nat → HttpOutcome) :
    ∀ (fuel used : Nat), used ≤ (deliverFrom resp fuel used).2
  | 0, used => Nat.le_refl used
  | fuel + 1, used => by
      unfold deliverFrom
      cases classify (resp used) with
      | success => simp
      | fatal => simp
      | retryable => exact Nat.le_trans (by omega) (deliverFrom_used_le resp fuel (used + 1))

theorem deliverFrom_pos_attempts (resp : Nat → HttpOutcome) :
    ∀ (fuel used : Nat), 1 ≤ fuel → used + 1 ≤ (deliverFrom resp fuel used).2
  | 0, _, h => absurd h (by omega)
  | fuel + 1, used, _ => by
      unfold deliverFrom
      cases classify (resp used) with
      | success => simp
      | fatal => simp
      | retryable => exact Nat.le_trans (by omega) (deliverFrom_used_le resp fuel (used + 1))

theorem deliverFrom_all_retryable (resp : Nat → HttpOutcome)
    (h : ∀ n, classify (resp n) = .retryable) :
    ∀ (fuel used : Nat), deliverFrom resp fuel used = (.deliveryExhausted, used + fuel)
  | 0, used => by simp [deliverFrom]
  | fuel + 1, used => by
      unfold deliverFrom
      rw [h used, deliverFrom_all_retryable resp h fuel (used + 1)]
      refine congrArg (Prod.mk _) ?_
      omega

/-! ## Concrete documents for the claims -/

/-- A headers array of name/value records at the top level (the spec's
header-folding example). -/
def hdrDoc : Json :=
  .obj [("headers", .arr [.obj [("name", .str "Content-Type"), ("value", .str "json")]])]

/-- The spec's header-folding example as an input text. -/
def hdrText : GoText :=
  ⟨"\x7b\"headers\":[\x7b\"name\":\"Content-Type\",\"value\":\"json\"\x7d]\x7d", some hdrDoc⟩

/-- The same headers array nested under the `httpRequest` key. -/
def hdrDocWrapped : Json := .obj [("httpRequest", hdrDoc)]

/-- The wrapped header-folding example as an input text. -/
def hdrTextWrapped : GoText :=
  ⟨"\x7b\"httpRequest\":\x7b\"headers\":[\x7b\"name\":\"Content-Type\",\"value\":\"json\"\x7d]\x7d\x7d",
   some hdrDocWrapped⟩

/-- A document carrying an `Authorization` header value (capitalized, as the
HTTP header is conventionally spelled) under `httpRequest.headers`. -/
def authDocUpper : Json :=
  .obj [("httpRequest",
    .obj [("headers", .arr [.obj [("name", .str "Authorization"), ("value", .str "secret")]])])]

/-- The capitalized Authorization document as an input text. -/
def authTextUpper : GoText :=
  ⟨"\x7b\"httpRequest\":\x7b\"headers\":[\x7b\"name\":\"Authorization\",\"value\":\"secret\"\x7d]\x7d\x7d",
   some authDocUpper⟩

/-- The same document with the header name spelled in lower case. -/
def authDocLower : Json :=
  .obj [("httpRequest",
    .obj [("headers", .arr [.obj [("name", .str "authorization"), ("value", .str "secret")]])])]

/-- The lower-case authorization document as an input text. -/
def authTextLower : GoText :=
  ⟨"\x7b\"httpRequest\":\x7b\"headers\":[\x7b\"name\":\"authorization\",\"value\":\"secret\"\x7d]\x7d\x7d",
   some authDocLower⟩

/-- A text that is not well-formed JSON but contains an IPv4 address known to
the geo database. -/
def invalidIpText : GoText := ⟨"ip 34.202.37.93 oops", none⟩

/-- A valid document whose flattened pairs include a label named `region`
and whose raw text contains an IPv4 address known to the geo database. -/
def regionDoc : Json := .obj [("ip", .str "34.202.37.93"), ("region", .str "custom")]

/-- The region-collision document as an input text. -/
def regionText : GoText :=
  ⟨"\x7b\"ip\":\"34.202.37.93\",\"region\":\"custom\"\x7d", some regionDoc⟩

/-! ## Claim C1 -/

/-- Claim C1, counterexample: flattening the spec's own example
`{"headers":[{"name":"Content-Type","value":"json"}]}` does NOT yield a
`headers__Content_Type` label, and DOES yield a label for the name path
(`headers__0__name`): the folding rule of `parser_json` only fires on paths
containing the literal substring `httpRequest.headers`, so a top-level
`headers` array is flattened positionally. -/
theorem claim1_counterexample :
    lsGet (parser_json hdrText) "headers__Content_Type" = none ∧
    lsGet (parser_json hdrText) "headers__0__name" = some "Content-Type" := by
  constructor
  · decide
  · decide

/-- Claim C1, amended: header-pair folding fires only for paths under the
`httpRequest.headers` segment. For a headers array of name/value records
nested under `httpRequest`, flattening suppresses the name-path emission and
emits the value under `httpRequest.headers.` plus the header's own name
string: flattening `{"httpRequest":{"headers":[{"name":"Content-Type",
"value":"json"}]}}` yields exactly the label
`httpRequest__headers__Content_Type = "json"` and no separate name label,
while the unwrapped example of the original claim is flattened positionally
into `headers__0__name` and `headers__0__value`. -/
theorem claim1_amended :
    parser_json hdrTextWrapped = [("httpRequest__headers__Content_Type", "json")] ∧
    parser_json hdrText = [("headers__0__name", "Content-Type"), ("headers__0__value", "json")] := by
  constructor
  · decide
  · decide

/-! ## Claim C2 -/

/-- Claim C2, counterexample: flattening a document containing an
`Authorization` header value (spelled with the conventional capital A) DOES
produce a label for that value — the deny-list test
`strings.Contains(path, "httpRequest__headers__authorization")` is
case-sensitive and only matches the lower-case spelling, while the folded
path keeps the header name's original case. -/
theorem claim2_counterexample :
    lsGet (parser_json authTextUpper) "httpRequest__headers__Authorization" = some "secret" := by
  decide

/-- Claim C2, amended: for every (path, value) pair produced by flattening,
the pair is dropped whenever the value's UTF-8 length exceeds 6048, whenever
the (pre-sanitization) path's length exceeds 1024 — every emitted label name
is the sanitization of a path of at most 1024 bytes — or whenever the
sanitized path matches the fixed deny-list case-sensitively (for the Accept
header: case-insensitive whole-path equality); in particular a document
whose Authorization header name is spelled in lower case never yields a
label for that value, but other spellings (such as `Authorization`) are
emitted. -/
theorem claim2_amended (j : Json) (path p v : String)
    (h : emitOf j path = some (p, v)) :
    goLen v ≤ 6048 ∧
    (∃ q, goLen q ≤ 1024 ∧ p = validPath q) ∧
    goContains p "ruleGroupList" = false ∧
    goEqualFold p "httpRequest__headers__Accept" = false ∧
    goContains p "httpRequest__headers__accept_encoding" = false ∧
    goContains p "httpRequest__headers__accept_language" = false ∧
    goContains p "httpRequest__headers__cache_control" = false ∧
    goContains p "httpRequest__headers__authorization" = false ∧
    goContains p "httpRequest__headers__If_Modified_Since" = false ∧
    goContains p "httpRequest__requestId" = false ∧
    parser_json authTextLower = [] := by
  obtain ⟨-, hlen, hq, hdeny1, hdeny2⟩ := emitOf_inv j path p v h
  simp only [Bool.or_eq_false_iff] at hdeny1 hdeny2
  exact ⟨hlen, hq, hdeny1.1.1.1.1.1, hdeny1.1.1.1.1.2, hdeny1.1.1.1.2,
    hdeny1.1.1.2, hdeny1.1.2, hdeny1.2, hdeny2.1, hdeny2.2, by decide⟩

/-- Witness for the amended claim C2: the single-field document
`{"a":"x"}` emits the pair `("a", "x")`, which satisfies every bound and
deny condition, and the lower-case authorization document flattens to the
empty label set. -/
theorem claim2_amended_witness :
    emitOf (Json.obj [("a", Json.str "x")]) "a" = some ("a", "x") ∧
    (goLen "x" ≤ 6048 ∧
     (∃ q, goLen q ≤ 1024 ∧ "a" = validPath q) ∧
     goContains "a" "ruleGroupList" = false ∧
     goEqualFold "a" "httpRequest__headers__Accept" = false ∧
     goContains "a" "httpRequest__headers__accept_encoding" = false ∧
     goContains "a" "httpRequest__headers__accept_language" = false ∧
     goContains "a" "httpRequest__headers__cache_control" = false ∧
     goContains "a" "httpRequest__headers__authorization" = false ∧
     goContains "a" "httpRequest__headers__If_Modified_Since" = false ∧
     goContains "a" "httpRequest__requestId" = false ∧
     parser_json authTextLower = []) :=
  ⟨by decide, claim2_amended (Json.obj [("a", Json.str "x")]) "a" "a" "x" (by decide)⟩

/-! ## Claim C3 -/

/-- Claim C3, counterexample: on a text that is not well-formed JSON,
`parser_json` does NOT always return an empty label set — the region
annotation is computed from the raw text before the validity check, so an
invalid text containing a known IPv4 address yields a `region` label. -/
theorem claim3_counterexample :
    parser_json invalidIpText = [("region", "US")] ∧
    parser_json invalidIpText ≠ [] := by
  constructor
  · decide
  · decide

/-- Claim C3, amended: for every input text that is not well-formed JSON,
the flattening engine returns exactly the region-annotation label set —
empty whenever the IP Region Annotator finds no region in the raw text —
and it is a total function, never raising for any input. -/
theorem claim3_amended (raw : String) :
    parser_json ⟨raw, none⟩ =
      if searchRegionFromIp raw ≠ "" then [("region", searchRegionFromIp raw)] else [] :=
  parser_json_invalid raw

/-! ## Claim C4 -/

/-- Claim C4, confirmed (with the batch append and the delivery client
modelled from the spec): for every inbound event whose envelope matches none
of the known adapter schemas — `checkEventType` returns an error, modelled
as `decoded = none` — the handler routes the raw event to the generic
fallback `processEvent` instead of failing the invocation: as long as label
extraction yields at least one label, exactly one entry is appended, whose
labels are the flattened labels of the serialized record merged with the
extra labels and whose line is the serialized record, and the resulting
batch is handed to the delivery client. -/
theorem claim4_thm (extraLabels : LabelSet) (ev : GoText)
    (h : applyExtraLabels extraLabels (parser_json ev) ≠ []) :
    handler none extraLabels ev =
      .delivered [{ labels := applyExtraLabels extraLabels (parser_json ev), line := ev.raw }] := by
  show processEvent extraLabels ev = _
  unfold processEvent parserEvent batchAdd
  simp only [if_neg h]
  rfl

/-- An unrecognized inbound record (no known envelope schema): its
serialization and its parse. -/
def fallbackEv : GoText := ⟨"\x7b\"a\":\"1\"\x7d", some (Json.obj [("a", Json.str "1")])⟩

/-- Witness for claim C4: the unrecognized record `{"a":"1"}` is processed
end-to-end into one delivered entry. -/
theorem claim4_witness :
    applyExtraLabels [] (parser_json fallbackEv) ≠ [] ∧
    handler none [] fallbackEv =
      .delivered [{ labels := applyExtraLabels [] (parser_json fallbackEv),
                    line := fallbackEv.raw }] :=
  ⟨by decide, claim4_thm [] fallbackEv (by decide)⟩

/-! ## Claim C5 -/

/-- Claim C5, confirmed (delivery client modelled from the spec): a 500
response triggers at least one retry — with at least two attempts allowed,
at least two requests are issued; a 429 response is likewise retried; a 400
response triggers zero retries and surfaces the fatal delivery error
immediately (terminal result after exactly one request); and exhausting the
attempt count on retryable outcomes surfaces the delivery-exhausted error. -/
theorem claim5_thm :
    (∀ (maxAttempts : Nat) (resp : Nat → HttpOutcome), 2 ≤ maxAttempts →
        resp 0 = .status 500 → 2 ≤ (deliver maxAttempts resp).2) ∧
    (∀ (maxAttempts : Nat) (resp : Nat → HttpOutcome), 2 ≤ maxAttempts →
        resp 0 = .status 429 → 2 ≤ (deliver maxAttempts resp).2) ∧
    (∀ (maxAttempts : Nat) (resp : Nat → HttpOutcome), 1 ≤ maxAttempts →
        resp 0 = .status 400 → deliver maxAttempts resp = (.deliveryFatal, 1)) ∧
    (∀ (maxAttempts : Nat) (resp : Nat → HttpOutcome),
        (∀ n, classify (resp n) = .retryable) →
        deliver maxAttempts resp = (.deliveryExhausted, maxAttempts)) := by
  refine ⟨?_, ?_, ?_, ?_⟩
  · intro maxAttempts resp hmax h0
    obtain ⟨f, rfl⟩ : ∃ f, maxAttempts = f + 2 := ⟨maxAttempts - 2, by omega⟩
    show 2 ≤ (deliverFrom resp (f + 2) 0).2
    unfold deliverFrom
    rw [h0, show classify (.status 500) = .retryable from by decide]
    exact deliverFrom_pos_attempts resp (f + 1) 1 (by omega)
  · intro maxAttempts resp hmax h0
    obtain ⟨f, rfl⟩ : ∃ f, maxAttempts = f + 2 := ⟨maxAttempts - 2, by omega⟩
    show 2 ≤ (deliverFrom resp (f + 2) 0).2
    unfold deliverFrom
    rw [h0, show classify (.status 429) = .retryable from by decide]
    exact deliverFrom_pos_attempts resp (f + 1) 1 (by omega)
  · intro maxAttempts resp hmax h0
    obtain ⟨f, rfl⟩ : ∃ f, maxAttempts = f + 1 := ⟨maxAttempts - 1, by omega⟩
    show deliverFrom resp (f + 1) 0 = (.deliveryFatal, 1)
    unfold deliverFrom
    rw [h0, show classify (.status 400) = .fatal from by decide]
  · intro maxAttempts resp hr
    show deliverFrom resp maxAttempts 0 = (.deliveryExhausted, maxAttempts)
    rw [deliverFrom_all_retryable resp hr maxAttempts 0]
    rw [Nat.zero_add]

/-- Witness for claim C5: concrete response schedules exercising all four
conjuncts. -/
theorem claim5_witness :
    2 ≤ (deliver 2 (fun _ => .status 500)).2 ∧
    2 ≤ (deliver 2 (fun _ => .status 429)).2 ∧
    deliver 3 (fun _ => .status 400) = (.deliveryFatal, 1) ∧
    deliver 4 (fun _ => .netError) = (.deliveryExhausted, 4) :=
  ⟨claim5_thm.1 2 (fun _ => .status 500) (by omega) rfl,
   claim5_thm.2.1 2 (fun _ => .status 429) (by omega) rfl,
   claim5_thm.2.2.1 3 (fun _ => .status 400) (by omega) rfl,
   claim5_thm.2.2.2 4 (fun _ => .netError) (fun n => rfl)⟩

/-! ## Claim C6 -/

/-- Claim C6, confirmed: merging label sets is a right-biased union — on a
key present in the later-applied set (whose keys, coming from a Go map, are
unique) the later value wins, and merging with the empty set is the
identity — and the `region` label contributed by the IP Region Annotator is
computed before flattening, so whenever the flattened pairs of a valid
document include a label named `region`, the result of `parser_json` carries
the (last) flattened region value, overriding the annotator's value. -/
theorem claim6_thm :
    (∀ (a b : LabelSet) (k v : String), (b.map Prod.fst).Nodup →
        lsGet b k = some v → lsGet (lsMerge a b) k = some v) ∧
    (∀ a : LabelSet, lsMerge a [] = a) ∧
    (∀ (raw : String) (j : Json) (v : String),
        lsGet (emittedPairs j).reverse "region" = some v →
        lsGet (parser_json ⟨raw, some j⟩) "region" = some v) := by
  refine ⟨lsGet_merge_right, fun a => rfl, ?_⟩
  intro raw j v h
  rw [parser_json_valid, lsGet_merge, h]

/-- Witness for claim C6: a concrete overlapping merge, a concrete identity
merge, and the region-collision document, whose raw text maps to region
"US" through the annotator while its flattened `region` label carries
"custom" — the flattened value wins in the result. -/
theorem claim6_witness :
    lsGet (lsMerge [("x", "1"), ("region", "US")] [("region", "custom")]) "region" = some "custom" ∧
    lsMerge [("x", "1")] [] = [("x", "1")] ∧
    (searchRegionFromIp regionText.raw = "US" ∧
     lsGet (parser_json regionText) "region" = some "custom") :=
  ⟨claim6_thm.1 [("x", "1"), ("region", "US")] [("region", "custom")] "region" "custom"
      (by decide) (by decide),
   claim6_thm.2.1 [("x", "1")],
   by decide,
   claim6_thm.2.2 regionText.raw regionDoc "custom" (by decide)⟩

/-! ## Claim C7 -/

/-- Claim C7, confirmed: for every scalar (string, number, null, bool) at a
path in a well-formed document, flattening emits exactly one (path, value)
pair and does not recurse further — `get_paths` produces exactly one path
per scalar leaf — and the value emitted for a path resolving to a number is
its original textual representation from the document (not re-formatted),
while a null's value is the empty string. -/
theorem claim7_thm :
    (∀ (j : Json) (parent_path : String),
        (get_paths j parent_path).length = countScalars j) ∧
    (∀ (j : Json) (path p v raw : String), emitOf j path = some (p, v) →
        jget (splitPath path) j = some (.num raw) → v = raw) ∧
    (∀ (j : Json) (path p v : String), emitOf j path = some (p, v) →
        jget (splitPath path) j = some .null → v = "") := by
  refine ⟨get_paths_length, ?_, ?_⟩
  · intro j path p v raw h hnum
    have hv := (emitOf_inv j path p v h).1
    rw [hnum] at hv
    exact hv
  · intro j path p v h hnull
    have hv := (emitOf_inv j path p v h).1
    rw [hnull] at hv
    exact hv

/-- Witness for claim C7: the document `{"a":1.50,"b":null}` has two scalar
leaves and two paths; the value emitted at `a` is the raw text `1.50`
(not a re-formatted `1.5`), the value at `b` is empty. -/
theorem claim7_witness :
    (get_paths (Json.obj [("a", Json.num "1.50"), ("b", Json.null)]) "").length
      = countScalars (Json.obj [("a", Json.num "1.50"), ("b", Json.null)]) ∧
    (emitOf (Json.obj [("a", Json.num "1.50"), ("b", Json.null)]) "a" = some ("a", "1.50") ∧
     ("1.50" : String) = "1.50") ∧
    (emitOf (Json.obj [("a", Json.num "1.50"), ("b", Json.null)]) "b" = some ("b", "") ∧
     ("" : String) = "") :=
  ⟨claim7_thm.1 (Json.obj [("a", Json.num "1.50"), ("b", Json.null)]) "",
   ⟨by decide,
    claim7_thm.2.1 (Json.obj [("a", Json.num "1.50"), ("b", Json.null)]) "a" "a" "1.50" "1.50"
      (by decide) rfl⟩,
   ⟨by decide,
    claim7_thm.2.2 (Json.obj [("a", Json.num "1.50"), ("b", Json.null)]) "b" "b" ""
      (by decide) rfl⟩⟩

/-! ## Claim C8 -/

/-- Claim C8, confirmed: the authentication checks of `setupArguments` pass
exactly when username and password are both set or both unset, and it is not
the case that both basic credentials and a bearer token are configured —
equivalently, startup fails whenever exactly one of username/password is
set, or whenever both credentials and a bearer token are set, and succeeds
in every other combination. -/
theorem claim8_thm (username password bearerToken : String) :
    authValidate username password bearerToken = true ↔
      ((username = "") ↔ (password = "")) ∧
      ¬(username ≠ "" ∧ password ≠ "" ∧ bearerToken ≠ "") := by
  by_cases hu : username = "" <;> by_cases hp : password = "" <;>
    by_cases hb : bearerToken = "" <;>
    simp [authValidate, hu, hp, hb]

/-! ## Claim C9 -/

/-- Claim C9, confirmed: in `parseS3Log` the base label set variable is
reassigned by merging each line's flattened labels into it, so flattened
labels accumulate across lines. For an S3 object whose lines are
`p ++ x :: q` followed by any `rest`: the entries for the lines of `rest`
extend those already appended (so the entry for the last line of
`p ++ x :: q` is the same in the longer object); that entry carries the
accumulated state; and every label `k = v` flattened from line `x` and not
re-emitted by the later lines `q` is still present in it. -/
theorem claim9_thm (init : LabelSet) (p q rest : List GoText) (x : GoText) (k v : String)
    (hx : lsGet (parser_json x) k = some v)
    (hq : ∀ y ∈ q, lsGet (parser_json y) k = none) :
    parseS3Log_ls init ((p ++ x :: q) ++ rest)
      = parseS3Log_ls init (p ++ x :: q) ++ parseS3Log_ls (accState init (p ++ x :: q)) rest ∧
    (parseS3Log_ls init (p ++ x :: q)).getLast? = some (accState init (p ++ x :: q)) ∧
    lsGet (accState init (p ++ x :: q)) k = some v := by
  refine ⟨parseS3Log_ls_append init (p ++ x :: q) rest,
    parseS3Log_ls_getLast init (p ++ x :: q) (by simp), ?_⟩
  have hsplit : accState init (p ++ x :: q)
      = accState (lsMerge (accState init p) (parser_json x)) q := by
    rw [show p ++ x :: q = (p ++ [x]) ++ q from by simp, accState_append, accState_append]
    rfl
  rw [hsplit, lsGet_accState_of_absent k _ q hq]
  exact lsGet_merge_right _ _ k v (parser_json_keys_nodup x) hx

/-- A line whose flattened labels contain `a = 1`. -/
def lineA : GoText := ⟨"\x7b\"a\":\"1\"\x7d", some (Json.obj [("a", Json.str "1")])⟩

/-- A later line whose flattened labels do not mention `a`. -/
def lineB : GoText := ⟨"\x7b\"b\":\"2\"\x7d", some (Json.obj [("b", Json.str "2")])⟩

/-- Witness for claim C9: with lines `[lineA, lineB]`, the entry appended
for `lineB` still carries `a = "1"` extracted from `lineA`. -/
theorem claim9_witness :
    lsGet (parser_json lineA) "a" = some "1" ∧
    (∀ y ∈ [lineB], lsGet (parser_json y) "a" = none) ∧
    (parseS3Log_ls [] (([] ++ lineA :: [lineB]) ++ [])
        = parseS3Log_ls [] ([] ++ lineA :: [lineB]) ++
          parseS3Log_ls (accState [] ([] ++ lineA :: [lineB])) [] ∧
     (parseS3Log_ls [] ([] ++ lineA :: [lineB])).getLast?
        = some (accState [] ([] ++ lineA :: [lineB])) ∧
     lsGet (accState [] ([] ++ lineA :: [lineB])) "a" = some "1") :=
  ⟨by decide, by decide,
   claim9_thm [] [] [lineB] [] lineA "a" "1" (by decide) (by decide)⟩

/-! ## Claim C10 -/

theorem goAtoiDigits_zero (sign : Int) (d : List Char)
    (h : (goAtoiDigits sign d).2 = false) : (goAtoiDigits sign d).1 = 0 := by
  unfold goAtoiDigits at h ⊢
  cases hd : digitsToNat? d with
  | some n => rw [hd] at h; simp at h
  | none => rfl

theorem goAtoi_zero (s : String) (h : (goAtoi s).2 = false) : (goAtoi s).1 = 0 := by
  obtain ⟨data⟩ := s
  cases data with
  | nil => exact goAtoiDigits_zero 1 [] h
  | cons c t =>
      replace h : ((if c = '+' then goAtoiDigits 1 t
          else if c = '-' then goAtoiDigits (-1) t
          else goAtoiDigits 1 (c :: t)).2 = false) := h
      show (if c = '+' then goAtoiDigits 1 t
          else if c = '-' then goAtoiDigits (-1) t
          else goAtoiDigits 1 (c :: t)).1 = 0
      split_ifs at h ⊢ <;> exact goAtoiDigits_zero _ _ h

/-- Claim C10, confirmed: if the BATCH_SIZE environment variable is a
non-empty string that does not parse as an integer, `setupArguments` sets
the batch size threshold to Atoi's zero result (the parse error is
discarded) rather than keeping the default 131072 or failing. -/
theorem claim10_thm (batchEnv : String) (h1 : batchEnv ≠ "")
    (h2 : (goAtoi batchEnv).2 = false) :
    setupBatchSize batchEnv = 0 := by
  unfold setupBatchSize
  rw [if_pos (by simpa [bne_iff_ne] using h1)]
  exact goAtoi_zero batchEnv h2

/-- Witness for claim C10: BATCH_SIZE set to the non-integer "abc" yields a
threshold of 0. -/
theorem claim10_witness :
    ("abc" : String) ≠ "" ∧ (goAtoi "abc").2 = false ∧ setupBatchSize "abc" = 0 :=
  ⟨by decide, by decide, claim10_thm "abc" (by decide) (by decide)⟩
